import Mathlib

/-!
Verification of the stylized-facts literature-review pipeline
(`literature_review/`): document chunking, cosine-similarity retrieval,
LLM judge invocation with structured-output recovery, checkpointing and
idempotent result upserts.

The Python sources are shallowly embedded: text is `List Char`, Python
`int` indices are `Int` (Python slicing and `str.rfind`/`str.find`
semantics, including negative-index adjustment, are modelled exactly),
float vector components and scores are `ℚ` (exact arithmetic in place of
IEEE floats), dictionaries are association lists, and the unbounded
`while` loop of the chunker is given an explicit fuel parameter so that
non-termination is expressible.
-/

namespace DEB

/-! ## Python string primitives -/

/-- Python slice-index adjustment: a negative index counts from the end,
then the index is clamped to `[0, len]`.  Used by `str.find`, `str.rfind`
and slicing. -/
def pyAdjustIndex (len : Nat) (i : Int) : Int :=
  if i < 0 then max ((len : Int) + i) 0 else min i len

/-- Python slice `s[a:b]` on a character list. -/
def pySlice (s : List Char) (a b : Int) : List Char :=
  ((s.take (pyAdjustIndex s.length b).toNat).drop (pyAdjustIndex s.length a).toNat)

/-- Does `sub` occur in `s` starting exactly at (0-based) position `i`? -/
def matchAt (s sub : List Char) (i : Nat) : Bool :=
  decide ((s.drop i).take sub.length = sub)

/-- Scan positions `lo + k, lo + k - 1, …, lo` and return the first
(i.e. the highest) position where `sub` matches. -/
def rfindScan (s sub : List Char) (lo : Nat) : Nat → Option Nat
  | 0 => if matchAt s sub lo then some lo else none
  | k + 1 =>
    if matchAt s sub (lo + k + 1) then some (lo + k + 1)
    else rfindScan s sub lo k

/-- Highest position `i` with `lo ≤ i`, `i + sub.length ≤ hi` where `sub`
occurs in `s`. -/
def pyRfindNat (s sub : List Char) (lo hi : Nat) : Option Nat :=
  if lo + sub.length ≤ hi then rfindScan s sub lo (hi - sub.length - lo) else none

/-- Python `s.rfind(sub, a, b)`: the highest index of an occurrence of
`sub` lying fully inside the adjusted range, or `-1`. -/
def pyRfind (s sub : List Char) (a b : Int) : Int :=
  match pyRfindNat s sub (pyAdjustIndex s.length a).toNat (pyAdjustIndex s.length b).toNat with
  | some i => (i : Int)
  | none => -1

/-- Lowest position `i` with `lo ≤ i`, `i + sub.length ≤ hi` where `sub`
occurs in `s`. -/
def pyFindNat (s sub : List Char) (lo hi : Nat) : Option Nat :=
  (((List.range (hi + 1 - lo)).map (lo + ·)).find?
    (fun i => decide (i + sub.length ≤ hi) && matchAt s sub i))

/-- Python `s.find(sub, a, b)`: lowest index of an occurrence, or `-1`. -/
def pyFind (s sub : List Char) (a b : Int) : Int :=
  match pyFindNat s sub (pyAdjustIndex s.length a).toNat (pyAdjustIndex s.length b).toNat with
  | some i => (i : Int)
  | none => -1

/-- Python `sub in s` substring test. -/
def hasSub (s sub : List Char) : Bool :=
  (pyFindNat s sub 0 s.length).isSome

/-- The ASCII whitespace characters stripped by Python `str.strip()`. -/
def isPySpace (c : Char) : Bool :=
  c = ' ' || c = '\t' || c = '\n' || c = '\r' || c = '\x0b' || c = '\x0c'

/-- Python `s.strip()`. -/
def pyStrip (s : List Char) : List Char :=
  ((s.dropWhile isPySpace).reverse.dropWhile isPySpace).reverse

/-! ## Chunker (`phase2_indexing/document_processor.py`, `DocumentChunker.chunk_text`) -/

/-- One emitted chunk: `chunk_id`, stripped text, and the span
`[char_start, char_end)` recorded by the source. -/
structure Chunk where
  chunk_id : Nat
  text : List Char
  char_start : Int
  char_end : Int
deriving DecidableEq, Repr

/-- The sentence-end markers, in the exact order the source's `for` loop
tries them: `'. '`, `'.\n'`, `'! '`, `'? '`. -/
def sentenceMarkers : List (List Char) :=
  [". ".data, ".\n".data, "! ".data, "? ".data]

/-- The marker `for` loop of `chunk_text`: for each marker in order, let
`pos = text.rfind(marker, start, e)`; on the first marker with
`pos > start` set the end to `pos + 1` and `break`; else keep `e`. -/
def adjustEndList (text : List Char) (start e : Int) : List (List Char) → Int
  | [] => e
  | m :: ms =>
    if pyRfind text m start e > start then pyRfind text m start e + 1
    else adjustEndList text start e ms

/-- Sentence-boundary adjustment of the proposed chunk end. -/
def adjustEnd (text : List Char) (start e : Int) : Int :=
  adjustEndList text start e sentenceMarkers

/-- The `while start < len(text)` loop body of `chunk_text`, with explicit
fuel.  Each iteration: `e0 = start + chunk_size`; if `e0 < len(text)` run
the marker search; extract `text[start:e].strip()`; emit it when
non-empty; then `start = e - chunk_overlap if e < len(text) else e`.
Returns `none` when the fuel runs out before the loop exits. -/
def chunkLoop (text : List Char) (S O : Nat) : Nat → Int → Nat → Option (List Chunk)
  | 0, _, _ => none
  | fuel + 1, start, cid =>
    if start < (text.length : Int) then
      let e0 : Int := start + (S : Int)
      let e : Int := if e0 < (text.length : Int) then adjustEnd text start e0 else e0
      let ctext := pyStrip (pySlice text start e)
      let nxt : Int := if e < (text.length : Int) then e - (O : Int) else e
      if ctext = [] then chunkLoop text S O fuel nxt cid
      else (chunkLoop text S O fuel nxt (cid + 1)).map
        (fun rest => ⟨cid, ctext, start, e⟩ :: rest)
    else some []

/-- `chunk_text(text)` with chunk size `S` and overlap `O`, given `fuel`
loop iterations; the source returns `[]` for empty text before entering
the loop (subsumed by the loop guard at `start = 0`). -/
def chunkTextFuel (text : List Char) (S O fuel : Nat) : Option (List Chunk) :=
  chunkLoop text S O fuel 0 0

/-- The chunking loop terminates on the given input. -/
def ChunkTerminates (text : List Char) (S O : Nat) : Prop :=
  ∃ fuel, (chunkTextFuel text S O fuel).isSome

/-- Modelled from the spec's words, for comparison with the code: the end
is moved to just after the last occurrence, over all four marker types
considered together, of a sentence-boundary marker strictly after
`start`. -/
def specCombinedEnd (text : List Char) (start e : Int) : Int :=
  let best := (sentenceMarkers.map (fun m => pyRfind text m start e)).foldl max (-1)
  if best > start then best + 1 else e

/-! ## Vector retrieval (`phase3_review/rag_retriever.py`, `RAGRetriever._cosine_similarity_search`)

Embedding components are `ℚ` (exact arithmetic in place of floats).  A
similarity score `dot/(‖q‖·‖c‖)` involves square roots, so an entry
carries the exact pair `(dotQ, nsq)` — the numerator and the squared
chunk norm — from which the real-valued score `realScore` is defined and
on which the exact comparator `scoreGT` decides the score order. -/

/-- A chunk document as stored in the `chunks` collection (fields other
than the embedding and identity are irrelevant to the claims). -/
structure StoredChunk where
  chunk_id : Nat
  embedding : List ℚ
deriving DecidableEq, Repr

/-- `np.dot` on equal-length vectors. -/
def dotProd (a b : List ℚ) : ℚ :=
  (List.zipWith (· * ·) a b).sum

/-- Squared Euclidean norm; `np.linalg.norm(v) > 0` iff `normSq v > 0`. -/
def normSq (a : List ℚ) : ℚ := dotProd a a

/-- One entry of the `similarities` list: `pos` is the insertion
(iteration) position of the chunk, `dotQ = dot(query, chunk)` and
`nsq = ‖chunk‖²`; its score is `dotQ / (‖query‖·√nsq)`. -/
structure SimEntry where
  pos : Nat
  chunk : StoredChunk
  dotQ : ℚ
  nsq : ℚ
deriving DecidableEq, Repr

/-- Builds the `similarities` list in chunk iteration order, keeping a
chunk only when `chunk_norm > 0 and query_norm > 0` (the source's filter
condition, with `norm > 0` decided as `normSq > 0`). -/
def simListAux (q : List ℚ) : Nat → List StoredChunk → List SimEntry
  | _, [] => []
  | i, c :: rest =>
    if 0 < normSq c.embedding ∧ 0 < normSq q then
      ⟨i, c, dotProd q c.embedding, normSq c.embedding⟩ :: simListAux q (i + 1) rest
    else simListAux q (i + 1) rest

def simList (q : List ℚ) (cs : List StoredChunk) : List SimEntry :=
  simListAux q 0 cs

/-- Exact decision of `score a > score b` for two entries against the
same query: with `x = a.dotQ`, `y = b.dotQ`, `A = a.nsq`, `B = b.nsq`
(all norms positive), `x/√A > y/√B` iff `x·√B > y·√A`, decided by sign
analysis and cross-multiplied squares. -/
def scoreGT (a b : SimEntry) : Bool :=
  if 0 ≤ a.dotQ then
    if 0 ≤ b.dotQ then decide (b.dotQ ^ 2 * a.nsq < a.dotQ ^ 2 * b.nsq)
    else true
  else
    if 0 ≤ b.dotQ then false
    else decide (a.dotQ ^ 2 * b.nsq < b.dotQ ^ 2 * a.nsq)

/-- Stable descending insertion: `x` is placed before the first element
that is not strictly greater, so elements with equal score keep their
original relative order (the stability guarantee of Python's
`list.sort(key=…, reverse=True)`). -/
def insertDesc (x : SimEntry) : List SimEntry → List SimEntry
  | [] => [x]
  | y :: ys => if scoreGT y x then y :: insertDesc x ys else x :: y :: ys

/-- Stable descending sort by score, modelling
`similarities.sort(key=lambda x: x[1], reverse=True)`. -/
def sortDesc : List SimEntry → List SimEntry
  | [] => []
  | x :: xs => insertDesc x (sortDesc xs)

/-- `_cosine_similarity_search(query, top_k)`: build the similarity list
over all stored chunks, sort descending, return the first `top_k`
entries (the source then projects each entry to a result dict,
preserving order). -/
def cosineSearch (q : List ℚ) (cs : List StoredChunk) (k : Nat) : List SimEntry :=
  (sortDesc (simList q cs)).take k

/-- The real-valued cosine similarity `dot/(‖q‖·‖c‖)` of an entry, for a
query with squared norm `Q`. -/
noncomputable def rScore (Q : ℚ) (e : SimEntry) : ℝ :=
  (e.dotQ : ℝ) / (Real.sqrt (Q : ℝ) * Real.sqrt (e.nsq : ℝ))

/-- The similarity score of an entry of `cosineSearch q cs k`. -/
noncomputable def realScore (q : List ℚ) (e : SimEntry) : ℝ :=
  rScore (normSq q) e

/-! ## Python dicts as association lists -/

/-- JSON-like values appearing in the assessment dictionaries. -/
inductive JVal where
  | num (n : Int)
  | rat (q : ℚ)
  | str (s : String)
  | strList (l : List String)
deriving DecidableEq, Repr

abbrev Dict := List (String × JVal)

/-- Python `d[k] = v`: replace the first binding of `k` in place, else
append (insertion-order semantics of Python dicts). -/
def setKey : Dict → String → JVal → Dict
  | [], k, v => [(k, v)]
  | (k', v') :: rest, k, v =>
    if k' = k then (k, v) :: rest else (k', v') :: setKey rest k v

/-- Python `d.get(k)` / `d[k]` lookup. -/
def getKey : Dict → String → Option JVal
  | [], _ => none
  | (k', v) :: rest, k => if k' = k then some v else getKey rest k

/-! ## Ollama client (`phase3_review/ollama_client.py`, `OllamaClient.generate_json`) -/

/-- The default verdict `generate_json` returns once all attempts failed
to decode (the literal dict at the end of the retry loop). -/
def parseFailureDefault : Dict :=
  [("score", .num 50), ("confidence", .str "low"),
   ("num_supporting_sources", .num 0), ("num_contradicting_sources", .num 0),
   ("key_evidence", .str "Failed to parse LLM response"),
   ("supporting_papers", .strList []), ("contradicting_papers", .strList [])]

/-- The markdown-fence stripping of `generate_json`: if `"```json"`
occurs, take from just after it to the next `"```"` (Python `find`
returning `-1` feeds the slice as-is, exactly as in the source); else the
same for a bare `"```"`; else strip the whole response. -/
def extractJson (resp : List Char) : List Char :=
  if hasSub resp "```json".data then
    pyStrip (pySlice resp (pyFind resp "```json".data 0 resp.length + 7)
      (pyFind resp "```".data (pyFind resp "```json".data 0 resp.length + 7) resp.length))
  else if hasSub resp "```".data then
    pyStrip (pySlice resp (pyFind resp "```".data 0 resp.length + 3)
      (pyFind resp "```".data (pyFind resp "```".data 0 resp.length + 3) resp.length))
  else pyStrip resp

/-- The `for attempt in range(max_retries)` loop of `generate_json`.
`gen attempt` is the judge transport on the given attempt, obtained from
`generate(prompt, system_prompt)`: either the (nondeterministic) raw
response text, or `Except.error e` when the call raises (e.g. a network
error, carried as its `str(e)` message) — the `except Exception: raise`
branch re-raises such an exception out of `generate_json`.  `decode`
models `json.loads` returning `none` on `JSONDecodeError`.  The outcome
(`Except.error` = exception propagating to the caller) is paired with
the list of judge invocations made, each recorded as the
`(prompt, system_prompt)` pair it was called with.  `remaining` counts
the loop iterations left (`maxR - attempt`); when the loop exhausts
without returning, the source returns `{}` — the empty dict. -/
def generateJsonLoop (gen : Nat → Except String (List Char)) (decode : List Char → Option Dict)
    (prompt sysp : String) (maxR : Nat) :
    Nat → Nat → Except String Dict × List (String × String)
  | 0, _ => (Except.ok [], [])
  | r + 1, attempt =>
    match gen attempt with
    | Except.error e => (Except.error e, [(prompt, sysp)])
    | Except.ok resp =>
      match decode (extractJson resp) with
      | some res => (Except.ok res, [(prompt, sysp)])
      | none =>
        if attempt = maxR - 1 then (Except.ok parseFailureDefault, [(prompt, sysp)])
        else
          ((generateJsonLoop gen decode prompt sysp maxR r (attempt + 1)).1,
           (prompt, sysp) :: (generateJsonLoop gen decode prompt sysp maxR r (attempt + 1)).2)

/-- `generate_json(prompt, system_prompt, max_retries)`. -/
def generateJson (gen : Nat → Except String (List Char)) (decode : List Char → Option Dict)
    (prompt sysp : String) (maxR : Nat) : Except String Dict × List (String × String) :=
  generateJsonLoop gen decode prompt sysp maxR maxR 0

/-! ## Assessment agent (`phase3_review/assessment_agent.py`, `AssessmentAgent.assess_fact`) -/

/-- A retrieved chunk as handed to the agent by the retriever (the dict
fields the agent reads; `similarity_score` is the float score, `ℚ` in
the model). -/
structure RChunk where
  filename : String
  text : String
  similarity_score : ℚ
deriving DecidableEq, Repr

/-- `AssessmentAgent._default_assessment(reason)`. -/
def defaultAssessment (reason : String) : Dict :=
  [("score", .num 0), ("confidence", .str "low"),
   ("num_supporting_sources", .num 0), ("num_contradicting_sources", .num 0),
   ("key_evidence", .str reason),
   ("supporting_papers", .strList []), ("contradicting_papers", .strList [])]

/-- The module-level `SYSTEM_PROMPT` of `assessment_agent.py`. -/
def systemPrompt : String :=
  "You are a scientific literature reviewer assessing evidence for Dynamic Energy Budget (DEB) theory statements.\n\nTASK: Assess the literature support for the given stylized fact based ONLY on the provided scientific literature excerpts.\n\nCRITICAL RULES:\n1. Base your assessment ONLY on the provided literature - do NOT use your prior knowledge\n2. If literature doesn\x27t address the fact, score appropriately low\n3. Look for: direct support, indirect support, contradictions, empirical evidence, theoretical backing\n\nSCORING SCALE (1-100):\n- 1-20: No evidence or contradictory evidence found\n- 21-40: Weak/indirect support, tangential mentions\n- 41-60: Moderate support, some direct evidence\n- 61-80: Strong support, multiple sources with good evidence\n- 81-100: Very strong support, extensive evidence across multiple sources\n\nOUTPUT FORMAT (JSON):\n\x7b\n  \"score\": <integer 1-100>,\n  \"confidence\": <\"low\"|\"medium\"|\"high\">,\n  \"num_supporting_sources\": <integer>,\n  \"num_contradicting_sources\": <integer>,\n  \"key_evidence\": \"<brief summary, max 200 words>\",\n  \"supporting_papers\": [\"<filename1>\", \"<filename2>\", ...],\n  \"contradicting_papers\": [\"<filename1>\", ...] (if any)\n\x7d"

/-- `AssessmentAgent._create_prompt(fact_number, fact_text, context)`. -/
def createPrompt (fn : Nat) (factText context : String) : String :=
  "STYLIZED FACT #" ++ toString fn ++ ":\n\"" ++ factText ++
    "\"\n\nRELEVANT LITERATURE EXCERPTS:\n\n" ++ context ++
    "\n\nPlease assess the literature support for this fact and provide your analysis in JSON format."

/-- The metadata fields `assess_fact` writes into the judge's verdict:
`fact_number`, `retrieved_chunks_count`, and `top_similarity_score`
(the first retrieved chunk's score, `0` for an empty list). -/
def addMeta (d : Dict) (fn : Nat) (ret : List RChunk) : Dict :=
  setKey (setKey (setKey d "fact_number" (.num fn))
      "retrieved_chunks_count" (.num ret.length))
    "top_similarity_score"
    (match ret.head? with
     | some c => .rat c.similarity_score
     | none => .num 0)

/-- `AssessmentAgent.assess_fact`: on zero retrieved chunks short-circuit
to the no-evidence default without calling the judge; otherwise build the
prompt (`context` is the rendered context block of `_build_context`) and
run `generate_json` inside the method's `try`: a verdict dict gets the
metadata attached, while an exception raised by the judge call is caught
by the method's own `except Exception` branch and converted into
`_default_assessment(f"Error: {str(e)}")` — `assess_fact` returns
normally in that case.  Returned with the list of judge invocations
made.  (The retriever, called before the `try`, is an external effect
whose results enter as `ret`; an exception raised there escapes
`assess_fact` to the orchestrator.) -/
def assessFact (fn : Nat) (factText : String) (ret : List RChunk) (context : String)
    (gen : Nat → Except String (List Char)) (decode : List Char → Option Dict) (maxR : Nat) :
    Dict × List (String × String) :=
  if ret = [] then (defaultAssessment "No relevant literature found", [])
  else
    match generateJson gen decode (createPrompt fn factText context) systemPrompt maxR with
    | (Except.ok a, invs) => (addMeta a fn ret, invs)
    | (Except.error e, invs) => (defaultAssessment ("Error: " ++ e), invs)

/-! ## Checkpoint manager (`phase3_review/checkpoint_manager.py`) -/

/-- The checkpoint record (`review_checkpoint.json`); timestamps are
abstract `Nat` instants. -/
structure Checkpoint where
  last_completed_fact : Nat
  total_facts : Nat
  facts_processed : Nat
  failed_facts : List Nat
  started_at : Nat
  last_updated : Nat
deriving DecidableEq, Repr

/-- `CheckpointManager.save_checkpoint`: stamps `last_updated` and
persists; the persisted record is the returned value. -/
def save_checkpoint (cp : Checkpoint) (now : Nat) : Checkpoint :=
  { cp with last_updated := now }

/-- `CheckpointManager.create_initial_checkpoint(total_facts)`. -/
def create_initial_checkpoint (total : Nat) (now : Nat) : Checkpoint :=
  ⟨0, total, 0, [], now, now⟩

/-- `CheckpointManager.update_checkpoint(checkpoint, fact_number,
success)`: set the cursor, bump the counter, append to `failed_facts`
iff the fact failed, then save.  (The model's record always carries a
`failed_facts` field, so the source's lazy-initialisation guard is a
no-op.) -/
def update_checkpoint (cp : Checkpoint) (fn : Nat) (success : Bool) (now : Nat) : Checkpoint :=
  save_checkpoint
    { cp with
      last_completed_fact := fn
      facts_processed := cp.facts_processed + 1
      failed_facts := if success then cp.failed_facts else cp.failed_facts ++ [fn] }
    now

/-! ## Review orchestrator (`phase3_review/review_pipeline.py`, `ReviewPipeline.run`) -/

/-- A fact loaded from the claim catalogue (the `section` key of the
source dict is `sectionName` here, `section` being reserved). -/
structure Fact where
  fact_number : Nat
  fact_text : String
  sectionName : String
deriving DecidableEq, Repr

/-- Observable per-fact steps of the orchestrator loop, in program
order: the assessment call, the MongoDB result upsert, the CSV row
update, and the checkpoint advance. -/
inductive Event where
  | assessEv (fn : Nat)
  | upsertEv (fn : Nat)
  | csvEv (fn : Nat)
  | advanceEv (fn : Nat) (success : Bool)
deriving DecidableEq, Repr

/-- The `for fact in facts_to_process` loop of `ReviewPipeline.run`.
`assess f` is the outcome of `self.agent.assess_fact(fact)`: `ok` a
verdict dict (which, per `assessFact`, includes the case of a judge-call
exception already converted to a default assessment inside the agent),
or `error` when an exception escapes the per-fact work — e.g. one raised
by the retrieval/embedding call, which sits outside `assess_fact`'s
`try`, or by the Mongo/CSV/checkpoint steps of the loop body itself.
On a normal result it is upserted, the CSV updated and the checkpoint
advanced with `success=True`; on an escaping exception the checkpoint is
advanced with `success=False` and the loop continues.  Returns the final
checkpoint and the event trace. -/
def runLoop (assess : Fact → Except Unit Dict) (now : Nat) :
    Checkpoint → List Fact → Checkpoint × List Event
  | cp, [] => (cp, [])
  | cp, f :: rest =>
    match assess f with
    | Except.ok _ =>
      ((runLoop assess now (update_checkpoint cp f.fact_number true now) rest).1,
       Event.assessEv f.fact_number :: Event.upsertEv f.fact_number ::
       Event.csvEv f.fact_number :: Event.advanceEv f.fact_number true ::
       (runLoop assess now (update_checkpoint cp f.fact_number true now) rest).2)
    | Except.error _ =>
      ((runLoop assess now (update_checkpoint cp f.fact_number false now) rest).1,
       Event.assessEv f.fact_number :: Event.advanceEv f.fact_number false ::
       (runLoop assess now (update_checkpoint cp f.fact_number false now) rest).2)

/-- `ReviewPipeline.run` (normal mode): load-or-create the checkpoint,
derive the pending set `[f for f in facts if f["fact_number"] >
last_completed]`, and run the loop.  Returns the final checkpoint, the
event trace, and the pending list. -/
def runPipeline (facts : List Fact) (cp0 : Option Checkpoint)
    (assess : Fact → Except Unit Dict) (now : Nat) :
    Checkpoint × List Event × List Fact :=
  let cp := cp0.getD (create_initial_checkpoint facts.length now)
  let pending := facts.filter (fun f => cp.last_completed_fact < f.fact_number)
  ((runLoop assess now cp pending).1, (runLoop assess now cp pending).2, pending)

/-! ## Result sink (`ReviewPipeline.run`, the `assessments.update_one(…, upsert=True)` call)

MongoDB is an external collaborator; its `update_one` with an equality
filter on the uniquely-indexed `fact_number`, a `$set` of every stored
field, and `upsert=True` replaces the first matching document's fields or
inserts a fresh document (document-store semantics per §6 of the spec). -/

/-- One stored assessment document; the `$set` document of the source
writes exactly these fields. -/
structure AssessmentRecord where
  fact_number : Nat
  assessment_result : Dict
  processing_time_seconds : ℚ
  llm_model : String
  created_at : Nat
deriving DecidableEq, Repr

/-- Upsert-by-`fact_number`: replace the first matching record (the
`$set` covers every field), else append. -/
def upsertAssessment : List AssessmentRecord → AssessmentRecord → List AssessmentRecord
  | [], r => [r]
  | x :: rest, r =>
    if x.fact_number = r.fact_number then r :: rest
    else x :: upsertAssessment rest r

/-! ## C10: checkpoint-update frame effect -/

/-- C10: `update_checkpoint` sets `last_completed_fact := fact_number`,
increments `facts_processed` by exactly one regardless of success,
appends `fact_number` to `failed_facts` exactly when `success` is false,
and stamps `last_updated` via the save; `total_facts`, `started_at` and —
on success — `failed_facts` are unchanged. -/
theorem C10_update_checkpoint_frame (cp : Checkpoint) (fn : Nat) (success : Bool) (now : Nat) :
    (update_checkpoint cp fn success now).last_completed_fact = fn ∧
    (update_checkpoint cp fn success now).facts_processed = cp.facts_processed + 1 ∧
    (update_checkpoint cp fn success now).failed_facts =
      (if success then cp.failed_facts else cp.failed_facts ++ [fn]) ∧
    (update_checkpoint cp fn success now).last_updated = now ∧
    (update_checkpoint cp fn success now).total_facts = cp.total_facts ∧
    (update_checkpoint cp fn success now).started_at = cp.started_at :=
  ⟨rfl, rfl, rfl, rfl, rfl, rfl⟩

/-! ## C9: idempotent result upsert -/

/-- C9: upserting `(n, A1)` then `(n, A2)` into a store that satisfies
the documented `fact_number` uniqueness constraint leaves exactly one
record keyed by `n`, and that record is `A2`. -/
theorem C9_upsert_idempotent (store : List AssessmentRecord) (n : Nat)
    (r1 r2 : AssessmentRecord) (h1 : r1.fact_number = n) (h2 : r2.fact_number = n)
    (hu : (store.filter (fun x => x.fact_number == n)).length ≤ 1) :
    ((upsertAssessment (upsertAssessment store r1) r2).filter
        (fun x => x.fact_number == n)).length = 1 ∧
    (upsertAssessment (upsertAssessment store r1) r2).find?
        (fun x => x.fact_number == n) = some r2 := by
  induction store with
  | nil =>
    simp [upsertAssessment, h1, h2, List.filter, List.find?]
  | cons x rest ih =>
    by_cases hx : x.fact_number = r1.fact_number
    · have hfx : (x.fact_number == n) = true := beq_iff_eq.mpr (hx.trans h1)
      have hr2 : (r2.fact_number == n) = true := beq_iff_eq.mpr h2
      have hstep : upsertAssessment (x :: rest) r1 = r1 :: rest := by
        simp [upsertAssessment, hx]
      have hstep2 : upsertAssessment (r1 :: rest) r2 = r2 :: rest := by
        simp [upsertAssessment, h1.trans h2.symm]
      have hrest : (rest.filter (fun y => y.fact_number == n)).length = 0 := by
        simp only [List.filter_cons, hfx, if_true, List.length_cons] at hu
        omega
      rw [hstep, hstep2]
      refine ⟨?_, ?_⟩
      · simp [List.filter_cons, hr2, hrest]
      · simp [hr2]
    · have hxn : x.fact_number ≠ n := fun h => hx (h.trans h1.symm)
      have hfxn : (x.fact_number == n) = false := by simp [hxn]
      have hstep : upsertAssessment (x :: rest) r1 = x :: upsertAssessment rest r1 := by
        simp [upsertAssessment, hx]
      have hx2 : x.fact_number ≠ r2.fact_number := fun h => hxn (h.trans h2)
      have hstep2 : upsertAssessment (x :: upsertAssessment rest r1) r2 =
          x :: upsertAssessment (upsertAssessment rest r1) r2 := by
        simp [upsertAssessment, hx2]
      have hu' : (rest.filter (fun y => y.fact_number == n)).length ≤ 1 := by
        simpa [List.filter_cons, hfxn] using hu
      obtain ⟨ihl, ihf⟩ := ih hu'
      rw [hstep, hstep2]
      refine ⟨?_, ?_⟩
      · simp [List.filter_cons, hfxn, ihl]
      · simp [hfxn, ihf]

/-- Witness for C9 at a concrete store and records. -/
theorem C9_upsert_idempotent_witness :
    (((upsertAssessment (upsertAssessment [] ⟨7, [], 0, "m", 0⟩) ⟨7, [("score", .num 9)], 1, "m", 1⟩).filter
        (fun x => x.fact_number == 7)).length = 1 ∧
     (upsertAssessment (upsertAssessment [] ⟨7, [], 0, "m", 0⟩) ⟨7, [("score", .num 9)], 1, "m", 1⟩).find?
        (fun x => x.fact_number == 7) = some ⟨7, [("score", .num 9)], 1, "m", 1⟩) :=
  C9_upsert_idempotent [] 7 ⟨7, [], 0, "m", 0⟩ ⟨7, [("score", .num 9)], 1, "m", 1⟩
    rfl rfl (by decide)

/-! ## C2: chunker termination -/

/-- On `"a. bbbbbbbbbb"` with `chunk_size = 5`, `chunk_overlap = 2`, the
boundary search moves the end to `2`, so `start = end - overlap = 0`
again: the loop re-enters the same state forever. -/
theorem chunkLoop_regress_stuck :
    ∀ fuel cid, chunkLoop ("a. bbbbbbbbbb".data) 5 2 fuel 0 cid = none := by
  intro fuel
  induction fuel with
  | zero => intro cid; rfl
  | succ n ih =>
    intro cid
    have h : chunkLoop ("a. bbbbbbbbbb".data) 5 2 (n + 1) 0 cid =
        (chunkLoop ("a. bbbbbbbbbb".data) 5 2 n 0 (cid + 1)).map
          (fun rest => ⟨cid, "a.".data, 0, 2⟩ :: rest) := rfl
    rw [h, ih]
    rfl

/-- C2 (the code at the failing input): with overlap `2 < 5 = chunk_size`
the chunking loop never terminates on `"a. bbbbbbbbbb"`: the
sentence-boundary search moves the end back to position `2` and the
overlap advance returns `start` to `0` on every iteration. -/
theorem C2_chunker_nonterminating :
    2 < 5 ∧ ¬ ChunkTerminates ("a. bbbbbbbbbb".data) 5 2 := by
  refine ⟨by decide, ?_⟩
  intro hc
  unfold ChunkTerminates at hc
  obtain ⟨fuel, h⟩ := hc
  unfold chunkTextFuel at h
  rw [chunkLoop_regress_stuck fuel 0] at h
  simp at h

/-! ## C8: parse-retry bound -/

/-- When every attempt returns a response that fails to decode, the
retry loop makes exactly `remaining` further judge invocations, all with
the same prompt pair, and ends in the parse-failure default. -/
theorem generateJsonLoop_allFail (gen : Nat → Except String (List Char))
    (texts : Nat → List Char) (decode : List Char → Option Dict)
    (prompt sysp : String) (maxR : Nat)
    (hgen : ∀ i, i < maxR → gen i = Except.ok (texts i))
    (hfail : ∀ i, i < maxR → decode (extractJson (texts i)) = none) :
    ∀ r attempt, attempt + r = maxR → 0 < r →
      generateJsonLoop gen decode prompt sysp maxR r attempt =
        (Except.ok parseFailureDefault, List.replicate r (prompt, sysp)) := by
  intro r
  induction r with
  | zero => intro attempt _ h0; omega
  | succ k ih =>
    intro attempt h _
    have hg : gen attempt = Except.ok (texts attempt) := hgen attempt (by omega)
    have hd : decode (extractJson (texts attempt)) = none := hfail attempt (by omega)
    by_cases hA : attempt = maxR - 1
    · have hk : k = 0 := by omega
      subst hk
      subst hA
      simp [generateJsonLoop, hg, hd, List.replicate]
    · have hk : 0 < k := by omega
      have hrec := ih (attempt + 1) (by omega) hk
      simp [generateJsonLoop, hg, hd, hA, hrec, List.replicate]

/-- C8 counterexample: for a judge whose output never decodes, with the
default `max_retries = 3` the judge is invoked exactly `3` times in
total — not `1 + 3` as the claim's "once plus up to the configured
maximum of additional times" (with the configured maximum read as `3`
retries) would require; the default is returned after only two retries. -/
theorem C8_retry_count_counterexample :
    (generateJson (fun _ => Except.ok "not json".data) (fun _ => none)
      "PROMPT" "SYSTEM" 3).2.length = 3 ∧
    (generateJson (fun _ => Except.ok "not json".data) (fun _ => none)
      "PROMPT" "SYSTEM" 3).1 = Except.ok parseFailureDefault ∧
    (3 : Nat) ≠ 1 + 3 := by
  refine ⟨rfl, rfl, by decide⟩

/-- C8 (amended): `max_retries` (default 3) bounds the TOTAL number of
judge invocations — one initial attempt plus up to `max_retries − 1`
retries, each re-invoked with the identical prompt and system prompt —
and a judge whose output never decodes is invoked exactly `max_retries`
times before the parse-failure default is returned. -/
theorem C8_retry_bound_amended (gen : Nat → Except String (List Char))
    (texts : Nat → List Char) (decode : List Char → Option Dict)
    (prompt sysp : String) (maxR : Nat) (h0 : 0 < maxR)
    (hgen : ∀ i, i < maxR → gen i = Except.ok (texts i))
    (hfail : ∀ i, i < maxR → decode (extractJson (texts i)) = none) :
    generateJson gen decode prompt sysp maxR =
      (Except.ok parseFailureDefault, List.replicate maxR (prompt, sysp)) := by
  unfold generateJson
  exact generateJsonLoop_allFail gen texts decode prompt sysp maxR hgen hfail maxR 0
    (by omega) h0

/-- Witness for the amended C8 at the default `max_retries = 3`. -/
theorem C8_retry_bound_amended_witness :
    generateJson (fun _ => Except.ok "x".data) (fun _ => none) "p" "s" 3 =
      (Except.ok parseFailureDefault, List.replicate 3 ("p", "s")) :=
  C8_retry_bound_amended (fun _ => Except.ok "x".data) (fun _ => "x".data)
    (fun _ => none) "p" "s" 3 (by decide) (fun _ _ => rfl) (fun _ _ => rfl)

/-! ## C1: resume correctness -/

/-- A claim catalogue containing claims numbered 1 through 10, in
catalogue order, with arbitrary texts and sections. -/
def catalog10 (txt sec : Nat → String) : List Fact :=
  [⟨1, txt 1, sec 1⟩, ⟨2, txt 2, sec 2⟩, ⟨3, txt 3, sec 3⟩, ⟨4, txt 4, sec 4⟩,
   ⟨5, txt 5, sec 5⟩, ⟨6, txt 6, sec 6⟩, ⟨7, txt 7, sec 7⟩, ⟨8, txt 8, sec 8⟩,
   ⟨9, txt 9, sec 9⟩, ⟨10, txt 10, sec 10⟩]

/-- C1: with a loaded checkpoint whose `last_completed_fact` is `5` and a
catalogue numbered 1..10, the pending set is exactly the claims with
`fact_number > 5`, and the run processes exactly 6,7,8,9,10 in that
order, invoking the assessment, the result upsert (and CSV update) and
the checkpoint advance for each. -/
theorem C1_resume_correctness (txt sec : Nat → String) (assess : Fact → Except Unit Dict)
    (cp : Checkpoint) (now : Nat) (hcp : cp.last_completed_fact = 5)
    (hok : ∀ f, ∃ d, assess f = Except.ok d) :
    (runPipeline (catalog10 txt sec) (some cp) assess now).2.2.map Fact.fact_number =
      [6, 7, 8, 9, 10] ∧
    (runPipeline (catalog10 txt sec) (some cp) assess now).2.1 =
      [Event.assessEv 6, Event.upsertEv 6, Event.csvEv 6, Event.advanceEv 6 true,
       Event.assessEv 7, Event.upsertEv 7, Event.csvEv 7, Event.advanceEv 7 true,
       Event.assessEv 8, Event.upsertEv 8, Event.csvEv 8, Event.advanceEv 8 true,
       Event.assessEv 9, Event.upsertEv 9, Event.csvEv 9, Event.advanceEv 9 true,
       Event.assessEv 10, Event.upsertEv 10, Event.csvEv 10, Event.advanceEv 10 true] := by
  obtain ⟨d6, h6⟩ := hok ⟨6, txt 6, sec 6⟩
  obtain ⟨d7, h7⟩ := hok ⟨7, txt 7, sec 7⟩
  obtain ⟨d8, h8⟩ := hok ⟨8, txt 8, sec 8⟩
  obtain ⟨d9, h9⟩ := hok ⟨9, txt 9, sec 9⟩
  obtain ⟨d10, h10⟩ := hok ⟨10, txt 10, sec 10⟩
  constructor
  · simp [runPipeline, catalog10, hcp]
  · simp [runPipeline, catalog10, hcp, runLoop, h6, h7, h8, h9, h10]

/-- Witness for C1 at a concrete checkpoint, catalogue and assessor. -/
theorem C1_resume_correctness_witness :
    (runPipeline (catalog10 (fun _ => "t") (fun _ => "s")) (some ⟨5, 10, 5, [], 0, 0⟩)
        (fun _ => Except.ok []) 0).2.2.map Fact.fact_number = [6, 7, 8, 9, 10] ∧
    (runPipeline (catalog10 (fun _ => "t") (fun _ => "s")) (some ⟨5, 10, 5, [], 0, 0⟩)
        (fun _ => Except.ok []) 0).2.1 =
      [Event.assessEv 6, Event.upsertEv 6, Event.csvEv 6, Event.advanceEv 6 true,
       Event.assessEv 7, Event.upsertEv 7, Event.csvEv 7, Event.advanceEv 7 true,
       Event.assessEv 8, Event.upsertEv 8, Event.csvEv 8, Event.advanceEv 8 true,
       Event.assessEv 9, Event.upsertEv 9, Event.csvEv 9, Event.advanceEv 9 true,
       Event.assessEv 10, Event.upsertEv 10, Event.csvEv 10, Event.advanceEv 10 true] :=
  C1_resume_correctness (fun _ => "t") (fun _ => "s") (fun _ => Except.ok [])
    ⟨5, 10, 5, [], 0, 0⟩ 0 rfl (fun _ => ⟨[], rfl⟩)

/-! ## C6: per-claim unexpected failure handling -/

/-- Facts already recorded as failed stay recorded across the rest of the
loop (the checkpoint only ever appends to `failed_facts`). -/
theorem runLoop_failed_mono (assess : Fact → Except Unit Dict) (now : Nat) :
    ∀ (facts : List Fact) (cp : Checkpoint) (x : Nat), x ∈ cp.failed_facts →
      x ∈ (runLoop assess now cp facts).1.failed_facts := by
  intro facts
  induction facts with
  | nil => intro cp x hx; exact hx
  | cons f rest ih =>
    intro cp x hx
    cases hass : assess f with
    | ok d =>
      simp only [runLoop, hass]
      exact ih _ x (by simp [update_checkpoint, save_checkpoint, hx])
    | error e =>
      simp only [runLoop, hass]
      exact ih _ x (by simp [update_checkpoint, save_checkpoint, hx])

/-- An upsert event in the trace can only stem from a fact in the list
whose assessment succeeded. -/
theorem runLoop_upsert_source (assess : Fact → Except Unit Dict) (now : Nat) :
    ∀ (facts : List Fact) (cp : Checkpoint) (m : Nat),
      Event.upsertEv m ∈ (runLoop assess now cp facts).2 →
      ∃ g ∈ facts, g.fact_number = m ∧ ∃ d, assess g = Except.ok d := by
  intro facts
  induction facts with
  | nil => intro cp m hm; simp [runLoop] at hm
  | cons f rest ih =>
    intro cp m hm
    cases hass : assess f with
    | ok d =>
      simp only [runLoop, hass, List.mem_cons] at hm
      rcases hm with h | h | h | h | h
      · cases h
      · cases h
        exact ⟨f, by simp, rfl, d, hass⟩
      · cases h
      · cases h
      · obtain ⟨g, hg, hgm, hd⟩ := ih _ m h
        exact ⟨g, by simp [hg], hgm, hd⟩
    | error e =>
      simp only [runLoop, hass, List.mem_cons] at hm
      rcases hm with h | h | h
      · cases h
      · cases h
      · obtain ⟨g, hg, hgm, hd⟩ := ih _ m h
        exact ⟨g, by simp [hg], hgm, hd⟩

/-- A raised judge transport error makes `generate_json` propagate the
exception after the single invocation of that attempt. -/
theorem generateJsonLoop_gen_error (gen : Nat → Except String (List Char))
    (decode : List Char → Option Dict) (prompt sysp : String) (maxR : Nat)
    (msg : String) (r attempt : Nat) (hgen : gen attempt = Except.error msg) :
    generateJsonLoop gen decode prompt sysp maxR (r + 1) attempt =
      (Except.error msg, [(prompt, sysp)]) := by
  simp [generateJsonLoop, hgen]

/-- C6 counterexample: for a claim whose judge call raises a network
error — the claim's own exemplar — `assess_fact`'s internal
`except Exception` converts the exception into the
`_default_assessment("Error: …")` verdict, and the orchestrator then
records the claim as a SUCCESS: the verdict is upserted, the CSV
updated, and the checkpoint advanced with `success=True`, with
`failed_facts` left empty — not appended to, contradicting the claim. -/
theorem C6_judge_error_counterexample :
    (assessFact 1 "f" [⟨"doc.pdf", "t", 1⟩] "c"
        (fun _ => Except.error "network error") (fun _ => none) 3).1 =
      defaultAssessment "Error: network error" ∧
    (runLoop (fun g => Except.ok (assessFact g.fact_number g.fact_text
          [⟨"doc.pdf", "t", 1⟩] "c" (fun _ => Except.error "network error")
          (fun _ => none) 3).1)
        0 ⟨0, 1, 0, [], 0, 0⟩ [⟨1, "f", "s"⟩]).2 =
      [Event.assessEv 1, Event.upsertEv 1, Event.csvEv 1, Event.advanceEv 1 true] ∧
    (runLoop (fun g => Except.ok (assessFact g.fact_number g.fact_text
          [⟨"doc.pdf", "t", 1⟩] "c" (fun _ => Except.error "network error")
          (fun _ => none) 3).1)
        0 ⟨0, 1, 0, [], 0, 0⟩ [⟨1, "f", "s"⟩]).1.failed_facts = [] :=
  ⟨rfl, rfl, rfl⟩

/-- C6 (amended): an unexpected exception that ESCAPES `assess_fact` —
e.g. one raised by the retrieval/embedding call, which sits outside
`assess_fact`'s `try`, or by the orchestrator's own Mongo/CSV/checkpoint
steps — is caught at the orchestrator level, the claim's `fact_number`
is appended to the checkpoint's `failed_facts`, the loop continues, and
no result upsert is emitted for that claim.  But an unexpected exception
during the judge call specifically is caught inside `assess_fact` and
converted into a default assessment (score 0, evidence `"Error: …"`),
which the orchestrator records as a success: upserted and advanced with
`success=True`, `failed_facts` unchanged. -/
theorem C6_failure_handling_amended (assess : Fact → Except Unit Dict) (now : Nat)
    (cp : Checkpoint) (f : Fact) (post : List Fact)
    (herr : assess f = Except.error ())
    (hfresh : ∀ g ∈ post, g.fact_number ≠ f.fact_number)
    (fn2 : Nat) (ft2 ctx2 sec2 : String) (ret : List RChunk) (msg : String)
    (gen : Nat → Except String (List Char)) (decode : List Char → Option Dict)
    (hret : ret ≠ []) (hgen0 : gen 0 = Except.error msg) :
    (runLoop assess now cp (f :: post)).2 =
      Event.assessEv f.fact_number :: Event.advanceEv f.fact_number false ::
        (runLoop assess now (update_checkpoint cp f.fact_number false now) post).2 ∧
    f.fact_number ∈ (runLoop assess now cp (f :: post)).1.failed_facts ∧
    Event.upsertEv f.fact_number ∉ (runLoop assess now cp (f :: post)).2 ∧
    (assessFact fn2 ft2 ret ctx2 gen decode 3).1 =
      defaultAssessment ("Error: " ++ msg) ∧
    (runLoop (fun g => Except.ok (assessFact g.fact_number g.fact_text ret ctx2
          gen decode 3).1) now cp [⟨fn2, ft2, sec2⟩]).2 =
      [Event.assessEv fn2, Event.upsertEv fn2, Event.csvEv fn2, Event.advanceEv fn2 true] ∧
    (runLoop (fun g => Except.ok (assessFact g.fact_number g.fact_text ret ctx2
          gen decode 3).1) now cp [⟨fn2, ft2, sec2⟩]).1.failed_facts = cp.failed_facts := by
  have hgj : generateJson gen decode (createPrompt fn2 ft2 ctx2) systemPrompt 3 =
      (Except.error msg, [(createPrompt fn2 ft2 ctx2, systemPrompt)]) := by
    unfold generateJson
    exact generateJsonLoop_gen_error gen decode _ _ 3 msg 2 0 hgen0
  refine ⟨by simp [runLoop, herr], ?_, ?_, ?_, ?_, ?_⟩
  · have hmem : f.fact_number ∈ (update_checkpoint cp f.fact_number false now).failed_facts := by
      simp [update_checkpoint, save_checkpoint]
    simp only [runLoop, herr]
    exact runLoop_failed_mono assess now post _ _ hmem
  · intro hmem
    simp only [runLoop, herr, List.mem_cons] at hmem
    rcases hmem with h | h | h
    · cases h
    · cases h
    · obtain ⟨g, hg, hgm, _, _⟩ := runLoop_upsert_source assess now post _ _ h
      exact hfresh g hg hgm
  · simp [assessFact, hret, hgj]
  · simp [runLoop]
  · simp [runLoop, update_checkpoint, save_checkpoint]

/-- Witness for the amended C6: the judge-call-error success path at a
concrete raising judge, via the theorem. -/
theorem C6_failure_handling_amended_witness :
    (assessFact 3 "f" [⟨"doc.pdf", "t", 1⟩] "c"
        (fun _ => Except.error "network error") (fun _ => none) 3).1 =
      defaultAssessment ("Error: " ++ "network error") :=
  (C6_failure_handling_amended (fun _ => Except.error ()) 0 ⟨0, 2, 0, [], 0, 0⟩
      ⟨1, "a", "s"⟩ [⟨2, "b", "s"⟩] rfl (by intro g hg; simp at hg; simp [hg])
      3 "f" "c" "s" [⟨"doc.pdf", "t", 1⟩] "network error"
      (fun _ => Except.error "network error") (fun _ => none)
      (by simp) rfl).2.2.2.1

/-! ## C7: fallback distinction -/

/-- Setting one key leaves lookups of a different key unchanged. -/
theorem getKey_setKey_ne (d : Dict) (k k2 : String) (v : JVal) (h : k2 ≠ k) :
    getKey (setKey d k2 v) k = getKey d k := by
  induction d with
  | nil => simp [setKey, getKey, h]
  | cons kv rest ih =>
    obtain ⟨k', v'⟩ := kv
    by_cases hk : k' = k2
    · subst hk
      simp [setKey, getKey, h]
    · by_cases hk2 : k' = k
      · simp [setKey, getKey, hk, hk2, Ne.symm h]
      · simp [setKey, getKey, hk, hk2, ih]

/-- Lookups in the attached metadata do not touch the verdict fields. -/
theorem getKey_addMeta_of_ne (d : Dict) (fn : Nat) (ret : List RChunk) (k : String)
    (h1 : k ≠ "fact_number") (h2 : k ≠ "retrieved_chunks_count")
    (h3 : k ≠ "top_similarity_score") :
    getKey (addMeta d fn ret) k = getKey d k := by
  unfold addMeta
  rw [getKey_setKey_ne _ _ _ _ (fun h => h3 h.symm),
    getKey_setKey_ne _ _ _ _ (fun h => h2 h.symm),
    getKey_setKey_ne _ _ _ _ (fun h => h1 h.symm)]

/-- C7: a claim with zero retrieved chunks yields the no-evidence default
(score 0, confidence low, evidence "No relevant literature found") with
no judge invocation, while a claim whose judge output never decodes
within the default retry budget yields the parse-failure default (score
50, confidence low, evidence "Failed to parse LLM response"); the two
defaults differ in both score and evidence text. -/
theorem C7_fallback_distinction (fn fn2 : Nat) (ft ft2 ctx ctx2 : String)
    (ret : List RChunk) (gen : Nat → Except String (List Char)) (texts : Nat → List Char)
    (decode : List Char → Option Dict)
    (hret : ret ≠ []) (hgen : ∀ i, i < 3 → gen i = Except.ok (texts i))
    (hfail : ∀ i, i < 3 → decode (extractJson (texts i)) = none) :
    getKey (assessFact fn ft [] ctx gen decode 3).1 "score" = some (.num 0) ∧
    getKey (assessFact fn ft [] ctx gen decode 3).1 "confidence" = some (.str "low") ∧
    getKey (assessFact fn ft [] ctx gen decode 3).1 "key_evidence" =
      some (.str "No relevant literature found") ∧
    (assessFact fn ft [] ctx gen decode 3).2 = [] ∧
    getKey (assessFact fn2 ft2 ret ctx2 gen decode 3).1 "score" = some (.num 50) ∧
    getKey (assessFact fn2 ft2 ret ctx2 gen decode 3).1 "confidence" = some (.str "low") ∧
    getKey (assessFact fn2 ft2 ret ctx2 gen decode 3).1 "key_evidence" =
      some (.str "Failed to parse LLM response") ∧
    JVal.num 0 ≠ JVal.num 50 ∧
    JVal.str "No relevant literature found" ≠ JVal.str "Failed to parse LLM response" := by
  have hgj : generateJson gen decode (createPrompt fn2 ft2 ctx2) systemPrompt 3 =
      (Except.ok parseFailureDefault,
        List.replicate 3 (createPrompt fn2 ft2 ctx2, systemPrompt)) := by
    unfold generateJson
    exact generateJsonLoop_allFail gen texts decode _ _ 3 hgen hfail 3 0 (by omega) (by omega)
  have hA : (assessFact fn2 ft2 ret ctx2 gen decode 3).1 =
      addMeta parseFailureDefault fn2 ret := by
    simp [assessFact, hret, hgj]
  refine ⟨rfl, rfl, rfl, rfl, ?_, ?_, ?_, by decide, by decide⟩
  · rw [hA, getKey_addMeta_of_ne _ _ _ _ (by decide) (by decide) (by decide)]
    rfl
  · rw [hA, getKey_addMeta_of_ne _ _ _ _ (by decide) (by decide) (by decide)]
    rfl
  · rw [hA, getKey_addMeta_of_ne _ _ _ _ (by decide) (by decide) (by decide)]
    rfl

/-- Witness for C7: the parse-failure side at a concrete judge and
retrieval result, via the theorem. -/
theorem C7_fallback_distinction_witness :
    getKey (assessFact 2 "f" [⟨"doc.pdf", "t", 1⟩] "c" (fun _ => Except.ok "x".data)
        (fun _ => none) 3).1 "score" = some (.num 50) :=
  (C7_fallback_distinction 1 2 "f0" "f" "c0" "c" [⟨"doc.pdf", "t", 1⟩]
      (fun _ => Except.ok "x".data) (fun _ => "x".data) (fun _ => none)
      (by simp) (fun _ _ => rfl) (fun _ _ => rfl)).2.2.2.2.1

/-! ## C4: zero-norm similarity -/

/-- With a zero-norm query every chunk fails the filter condition. -/
theorem simListAux_zero_query (q : List ℚ) (hq : normSq q = 0) :
    ∀ (cs : List StoredChunk) (i : Nat), simListAux q i cs = [] := by
  intro cs
  induction cs with
  | nil => intro i; rfl
  | cons c rest ih =>
    intro i
    have : ¬ (0 < normSq c.embedding ∧ 0 < normSq q) := by
      rintro ⟨_, h⟩
      rw [hq] at h
      exact lt_irrefl 0 h
    simp [simListAux, this, ih]

/-- Every entry of the similarity list records its chunk's dot product
and squared norm, both its chunk's and the query's norms are positive,
and its position is at least the starting index. -/
theorem simListAux_mem_spec (q : List ℚ) :
    ∀ (cs : List StoredChunk) (i : Nat) (e : SimEntry), e ∈ simListAux q i cs →
      0 < normSq e.chunk.embedding ∧ 0 < normSq q ∧
      e.dotQ = dotProd q e.chunk.embedding ∧ e.nsq = normSq e.chunk.embedding ∧
      i ≤ e.pos := by
  intro cs
  induction cs with
  | nil => intro i e he; simp [simListAux] at he
  | cons c rest ih =>
    intro i e he
    by_cases hc : 0 < normSq c.embedding ∧ 0 < normSq q
    · simp only [simListAux, if_pos hc, List.mem_cons] at he
      rcases he with he | he
      · subst he
        exact ⟨hc.1, hc.2, rfl, rfl, le_refl i⟩
      · obtain ⟨a, b, c', d, hpos⟩ := ih (i + 1) e he
        exact ⟨a, b, c', d, by omega⟩
    · simp only [simListAux, if_neg hc] at he
      obtain ⟨a, b, c', d, hpos⟩ := ih (i + 1) e he
      exact ⟨a, b, c', d, by omega⟩

/-- Membership in a stable descending insertion. -/
theorem mem_insertDesc (x : SimEntry) :
    ∀ (l : List SimEntry) (y : SimEntry), y ∈ insertDesc x l ↔ y = x ∨ y ∈ l := by
  intro l
  induction l with
  | nil => intro y; simp [insertDesc]
  | cons z zs ih =>
    intro y
    by_cases h : scoreGT z x
    · simp [insertDesc, h, ih]
      tauto
    · simp [insertDesc, h]

/-- The stable descending sort permutes membership. -/
theorem mem_sortDesc : ∀ (l : List SimEntry) (y : SimEntry), y ∈ sortDesc l ↔ y ∈ l := by
  intro l
  induction l with
  | nil => intro y; simp [sortDesc]
  | cons x xs ih =>
    intro y
    simp [sortDesc, mem_insertDesc, ih]

/-- C4 counterexample: a zero-norm query yields an empty candidate set
(not score-0 entries), and an indexed chunk whose embedding has zero norm
is excluded from the results even with `k` larger than the corpus —
contrary to the claim that such vectors participate with score 0. -/
theorem C4_zero_norm_counterexample :
    cosineSearch [0, 0] [⟨0, [1, 0]⟩] 5 = [] ∧
    (cosineSearch [1, 0] [⟨0, [0, 0]⟩, ⟨1, [1, 0]⟩] 5).map (fun e => e.chunk.chunk_id) = [1] ∧
    ¬ ∃ e ∈ cosineSearch [1, 0] [⟨0, [0, 0]⟩, ⟨1, [1, 0]⟩] 5, e.chunk.chunk_id = 0 := by
  have h1 : cosineSearch [0, 0] [⟨0, [1, 0]⟩] 5 = [] := by
    norm_num [cosineSearch, simList, simListAux, normSq, dotProd, sortDesc,
      List.zipWith, List.sum]
  have h2 : cosineSearch [1, 0] [⟨0, [0, 0]⟩, ⟨1, [1, 0]⟩] 5 =
      [⟨1, ⟨1, [1, 0]⟩, 1, 1⟩] := by
    norm_num [cosineSearch, simList, simListAux, normSq, dotProd, sortDesc, insertDesc,
      List.zipWith, List.sum]
  refine ⟨h1, by rw [h2]; rfl, ?_⟩
  rw [h2]
  rintro ⟨e, he, h0⟩
  simp only [List.mem_cons, List.not_mem_nil, or_false] at he
  subst he
  simp at h0

/-- C4 (amended): the score of every returned entry is the cosine
`dot/(‖a‖·‖b‖)` computed only for pairs with both norms positive; a
zero-norm query produces an empty result, and every candidate's chunk
has positive norm — zero-norm vectors are excluded from the candidate
set rather than participating with score 0 (no error and no NaN
arises). -/
theorem C4_zero_norm_amended (q : List ℚ) (cs : List StoredChunk) (k : Nat) :
    (normSq q = 0 → cosineSearch q cs k = []) ∧
    (∀ e ∈ cosineSearch q cs k, 0 < normSq e.chunk.embedding ∧ 0 < normSq q ∧
      e.dotQ = dotProd q e.chunk.embedding ∧ e.nsq = normSq e.chunk.embedding) := by
  constructor
  · intro hq
    unfold cosineSearch simList
    rw [simListAux_zero_query q hq cs 0]
    simp [sortDesc]
  · intro e he
    have he2 : e ∈ sortDesc (simList q cs) := List.mem_of_mem_take he
    have he3 : e ∈ simList q cs := (mem_sortDesc _ e).mp he2
    obtain ⟨a, b, c, d, _⟩ := simListAux_mem_spec q cs 0 e he3
    exact ⟨a, b, c, d⟩

/-- Witness for the amended C4: a concrete zero-norm query returns no
candidates. -/
theorem C4_zero_norm_amended_witness :
    cosineSearch [0, 0] [⟨0, [1, 0]⟩] 3 = [] :=
  (C4_zero_norm_amended [0, 0] [⟨0, [1, 0]⟩] 3).1
    (by norm_num [normSq, dotProd, List.zipWith, List.sum])

/-! ## C3: chunker boundary selection -/

/-- A result of the downward scan is a match inside the scanned range. -/
theorem rfindScan_some_spec (s sub : List Char) (lo : Nat) :
    ∀ (k p : Nat), rfindScan s sub lo k = some p →
      lo ≤ p ∧ p ≤ lo + k ∧ matchAt s sub p = true := by
  intro k
  induction k with
  | zero =>
    intro p h
    by_cases hm : matchAt s sub lo
    · simp [rfindScan, hm] at h
      subst h
      exact ⟨le_refl lo, by omega, hm⟩
    · simp [rfindScan, hm] at h
  | succ k ih =>
    intro p h
    by_cases hm : matchAt s sub (lo + k + 1)
    · simp [rfindScan, hm] at h
      subst h
      exact ⟨by omega, by omega, hm⟩
    · simp only [rfindScan, hm, if_false, Bool.false_eq_true] at h
      obtain ⟨h1, h2, h3⟩ := ih p h
      exact ⟨h1, by omega, h3⟩

/-- Any match inside the scanned range is dominated by the scan's
result: the scan returns the highest matching position. -/
theorem rfindScan_max (s sub : List Char) (lo : Nat) :
    ∀ (k j : Nat), lo ≤ j → j ≤ lo + k → matchAt s sub j = true →
      ∃ p, rfindScan s sub lo k = some p ∧ j ≤ p := by
  intro k
  induction k with
  | zero =>
    intro j h1 h2 hm
    have hj : j = lo := by omega
    subst hj
    exact ⟨j, by simp [rfindScan, hm], le_refl j⟩
  | succ k ih =>
    intro j h1 h2 hm
    by_cases hm2 : matchAt s sub (lo + k + 1)
    · exact ⟨lo + k + 1, by simp [rfindScan, hm2], by omega⟩
    · have hj : j ≤ lo + k := by
        rcases Nat.lt_or_ge j (lo + k + 1) with h | h
        · omega
        · exfalso
          have : j = lo + k + 1 := by omega
          rw [this] at hm
          exact hm2 hm
      obtain ⟨p, hp, hjp⟩ := ih j h1 hj hm
      exact ⟨p, by simp [rfindScan, hm2, hp], hjp⟩

/-- A `pyRfindNat` hit is a match fitting inside `[lo, hi)`. -/
theorem pyRfindNat_some_spec (s sub : List Char) (lo hi p : Nat)
    (h : pyRfindNat s sub lo hi = some p) :
    lo ≤ p ∧ p + sub.length ≤ hi ∧ matchAt s sub p = true := by
  unfold pyRfindNat at h
  by_cases hc : lo + sub.length ≤ hi
  · rw [if_pos hc] at h
    obtain ⟨h1, h2, h3⟩ := rfindScan_some_spec s sub lo _ p h
    exact ⟨h1, by omega, h3⟩
  · rw [if_neg hc] at h
    cases h

/-- `pyRfindNat` finds the highest match fitting inside `[lo, hi)`. -/
theorem pyRfindNat_max (s sub : List Char) (lo hi j : Nat)
    (h1 : lo ≤ j) (h2 : j + sub.length ≤ hi) (hm : matchAt s sub j = true) :
    ∃ p, pyRfindNat s sub lo hi = some p ∧ j ≤ p := by
  have hcond : lo + sub.length ≤ hi := by omega
  obtain ⟨p, hp, hjp⟩ := rfindScan_max s sub lo (hi - sub.length - lo) j h1 (by omega) hm
  exact ⟨p, by simp [pyRfindNat, hcond, hp], hjp⟩

/-- In-bounds indices are left unchanged by Python's index adjustment. -/
theorem pyAdjustIndex_of_bounds (len : Nat) (i : Int) (hi0 : 0 ≤ i) (hi1 : i ≤ len) :
    pyAdjustIndex len i = i := by
  unfold pyAdjustIndex
  rw [if_neg (not_lt.mpr hi0), min_eq_left hi1]

/-- When `pyRfind` reports a hit above `a` (with `0 ≤ a ≤ b ≤ len`), the
hit is the rightmost occurrence of `sub` inside `[a, b)`. -/
theorem pyRfind_gt_spec (s sub : List Char) (a b : Int)
    (h0 : 0 ≤ a) (hab : a ≤ b) (hb : b ≤ s.length)
    (hgt : pyRfind s sub a b > a) :
    ∃ p : Nat, (p : Int) = pyRfind s sub a b ∧ a < (p : Int) ∧
      (p : Int) + sub.length ≤ b ∧ matchAt s sub p = true ∧
      ∀ j : Nat, a ≤ (j : Int) → (j : Int) + sub.length ≤ b →
        matchAt s sub j = true → j ≤ p := by
  have hb0 : 0 ≤ b := le_trans h0 hab
  have hadj_a : pyAdjustIndex s.length a = a := pyAdjustIndex_of_bounds _ _ h0 (le_trans hab hb)
  have hadj_b : pyAdjustIndex s.length b = b := pyAdjustIndex_of_bounds _ _ hb0 hb
  cases hfind : pyRfindNat s sub a.toNat b.toNat with
  | none =>
    exfalso
    have hval : pyRfind s sub a b = -1 := by
      unfold pyRfind
      rw [hadj_a, hadj_b, hfind]
    rw [hval] at hgt
    omega
  | some i =>
    have hval : pyRfind s sub a b = (i : Int) := by
      unfold pyRfind
      rw [hadj_a, hadj_b, hfind]
    rw [hval] at hgt ⊢
    obtain ⟨hi1, hi2, hi3⟩ := pyRfindNat_some_spec s sub _ _ i hfind
    refine ⟨i, rfl, hgt, ?_, hi3, ?_⟩
    · have h2' : (i : Int) + sub.length ≤ (b.toNat : Int) := by exact_mod_cast hi2
      omega
    · intro j hj1 hj2 hjm
      have hj1' : a.toNat ≤ j := by omega
      have hj2' : j + sub.length ≤ b.toNat := by omega
      obtain ⟨p, hp, hjp⟩ := pyRfindNat_max s sub a.toNat b.toNat j hj1' hj2' hjm
      rw [hfind] at hp
      cases hp
      exact hjp

/-- When `pyRfind` reports no hit above `a` (with `0 ≤ a ≤ b ≤ len`),
no occurrence of `sub` fits inside `(a, b)`. -/
theorem pyRfind_le_spec (s sub : List Char) (a b : Int)
    (h0 : 0 ≤ a) (hab : a ≤ b) (hb : b ≤ s.length)
    (hle : pyRfind s sub a b ≤ a) :
    ∀ j : Nat, a < (j : Int) → (j : Int) + sub.length ≤ b →
      matchAt s sub j = false := by
  have hb0 : 0 ≤ b := le_trans h0 hab
  have hadj_a : pyAdjustIndex s.length a = a := pyAdjustIndex_of_bounds _ _ h0 (le_trans hab hb)
  have hadj_b : pyAdjustIndex s.length b = b := pyAdjustIndex_of_bounds _ _ hb0 hb
  intro j hj1 hj2
  by_contra hm
  have hm' : matchAt s sub j = true := by
    cases h : matchAt s sub j
    · exact absurd h hm
    · rfl
  have hj1' : a.toNat ≤ j := by omega
  have hj2' : j + sub.length ≤ b.toNat := by omega
  obtain ⟨p, hp, hjp⟩ := pyRfindNat_max s sub a.toNat b.toNat j hj1' hj2' hm'
  have hval : pyRfind s sub a b = (p : Int) := by
    unfold pyRfind
    rw [hadj_a, hadj_b, hp]
  rw [hval] at hle
  omega

/-- The marker loop characterised: either no marker type has an
occurrence strictly after `start` fitting in the window (end unchanged),
or some marker type `m` is the first in try order with such an
occurrence, every earlier type has none, and the end moves to just after
the RIGHTMOST occurrence of that one type `m`. -/
theorem adjustEndList_spec (text : List Char) (start e : Int)
    (h0 : 0 ≤ start) (h1 : start ≤ e) (h2 : e ≤ text.length) :
    ∀ ms : List (List Char),
      (adjustEndList text start e ms = e ∧
        ∀ m ∈ ms, ∀ j : Nat, start < (j : Int) → (j : Int) + m.length ≤ e →
          matchAt text m j = false) ∨
      (∃ pre m post, ms = pre ++ m :: post ∧
        (∀ m2 ∈ pre, ∀ j : Nat, start < (j : Int) → (j : Int) + m2.length ≤ e →
          matchAt text m2 j = false) ∧
        ∃ p : Nat, start < (p : Int) ∧ (p : Int) + m.length ≤ e ∧
          matchAt text m p = true ∧
          adjustEndList text start e ms = (p : Int) + 1 ∧
          ∀ j : Nat, start ≤ (j : Int) → (j : Int) + m.length ≤ e →
            matchAt text m j = true → j ≤ p) := by
  intro ms
  induction ms with
  | nil =>
    left
    exact ⟨rfl, by simp⟩
  | cons m ms ih =>
    by_cases hgt : pyRfind text m start e > start
    · right
      obtain ⟨p, hpv, hp1, hp2, hp3, hp4⟩ := pyRfind_gt_spec text m start e h0 h1 h2 hgt
      refine ⟨[], m, ms, rfl, by simp, p, hp1, hp2, hp3, ?_, hp4⟩
      simp only [adjustEndList, if_pos hgt]
      rw [hpv]
    · have hnone := pyRfind_le_spec text m start e h0 h1 h2 (not_lt.mp hgt)
      have hstep : adjustEndList text start e (m :: ms) = adjustEndList text start e ms := by
        simp [adjustEndList, hgt]
      rcases ih with ⟨hval, hall⟩ | ⟨pre, m', post, hsplit, hpre, p, hp1, hp2, hp3, hp4, hp5⟩
      · left
        refine ⟨hstep.trans hval, ?_⟩
        intro m2 hm2
        rcases List.mem_cons.mp hm2 with h | h
        · subst h
          exact hnone
        · exact hall m2 h
      · right
        refine ⟨m :: pre, m', post, by rw [hsplit]; rfl, ?_, p, hp1, hp2, hp3,
          hstep.trans hp4, hp5⟩
        intro m2 hm2
        rcases List.mem_cons.mp hm2 with h | h
        · subst h
          exact hnone
        · exact hpre m2 h

/-- The input exhibiting the marker-priority behaviour: in the window
`[0, 12)` of `"a. bbbb! cdefgh"` the marker `'. '` occurs at 1 and
`'! '` occurs (further right) at 7. -/
def chunkBoundaryExample : List Char := "a. bbbb! cdefgh".data

/-- C3 counterexample: chunking `"a. bbbb! cdefgh"` with `S = 12`,
`O = 1` ends the first chunk at `2` (just after the rightmost `'. '`,
the first marker type that occurs), although the rightmost
sentence-boundary occurrence over all four marker types together is the
`'! '` at 7, so the claimed end would be `8`. -/
theorem C3_boundary_counterexample :
    (1 : Nat) < 12 ∧
    (chunkTextFuel chunkBoundaryExample 12 1 10).map (fun cs => cs.map Chunk.char_end) =
      some [2, 8, 19] ∧
    specCombinedEnd chunkBoundaryExample 0 12 = 8 ∧
    ((2 : Int) ≠ 8) := by
  refine ⟨by decide, rfl, rfl, by decide⟩

/-- C3 (amended): whenever the proposed end `start + S` falls before the
text's end, the chunk end is moved to just after the rightmost
occurrence — strictly after `start` and fitting in the window — of only
the FIRST marker type, in the fixed order `'. '`, `'.\n'`, `'! '`,
`'? '`, that has such an occurrence; marker types later in that order
are not consulted even when they occur further right, and if no type has
such an occurrence the proposed end is kept. -/
theorem C3_boundary_selection_amended (text : List Char) (start e : Int)
    (h0 : 0 ≤ start) (h1 : start ≤ e) (h2 : e ≤ text.length) :
    (adjustEnd text start e = e ∧
      ∀ m ∈ sentenceMarkers, ∀ j : Nat, start < (j : Int) → (j : Int) + m.length ≤ e →
        matchAt text m j = false) ∨
    (∃ pre m post, sentenceMarkers = pre ++ m :: post ∧
      (∀ m2 ∈ pre, ∀ j : Nat, start < (j : Int) → (j : Int) + m2.length ≤ e →
        matchAt text m2 j = false) ∧
      ∃ p : Nat, start < (p : Int) ∧ (p : Int) + m.length ≤ e ∧
        matchAt text m p = true ∧
        adjustEnd text start e = (p : Int) + 1 ∧
        ∀ j : Nat, start ≤ (j : Int) → (j : Int) + m.length ≤ e →
          matchAt text m j = true → j ≤ p) :=
  adjustEndList_spec text start e h0 h1 h2 sentenceMarkers

/-- Witness for the amended C3 on the counterexample window. -/
theorem C3_boundary_selection_amended_witness :
    (adjustEnd chunkBoundaryExample 0 12 = 12 ∧
      ∀ m ∈ sentenceMarkers, ∀ j : Nat, (0 : Int) < (j : Int) → (j : Int) + m.length ≤ 12 →
        matchAt chunkBoundaryExample m j = false) ∨
    (∃ pre m post, sentenceMarkers = pre ++ m :: post ∧
      (∀ m2 ∈ pre, ∀ j : Nat, (0 : Int) < (j : Int) → (j : Int) + m2.length ≤ 12 →
        matchAt chunkBoundaryExample m2 j = false) ∧
      ∃ p : Nat, (0 : Int) < (p : Int) ∧ (p : Int) + m.length ≤ 12 ∧
        matchAt chunkBoundaryExample m p = true ∧
        adjustEnd chunkBoundaryExample 0 12 = (p : Int) + 1 ∧
        ∀ j : Nat, (0 : Int) ≤ (j : Int) → (j : Int) + m.length ≤ 12 →
          matchAt chunkBoundaryExample m j = true → j ≤ p) :=
  C3_boundary_selection_amended chunkBoundaryExample 0 12 (by decide) (by decide) (by decide)

/-! ## C5: retrieval ordering -/

/-- The exact comparator decides the real score order: for entries with
positive squared norms against a query with positive squared norm,
`scoreGT a b` holds iff the cosine score of `a` exceeds that of `b`. -/
theorem scoreGT_iff_rScore (Q : ℚ) (hQ : 0 < Q) (a b : SimEntry)
    (ha : 0 < a.nsq) (hb : 0 < b.nsq) :
    scoreGT a b = true ↔ rScore Q b < rScore Q a := by
  have hQ' : (0 : ℝ) < (Q : ℝ) := by exact_mod_cast hQ
  have hA' : (0 : ℝ) < (a.nsq : ℝ) := by exact_mod_cast ha
  have hB' : (0 : ℝ) < (b.nsq : ℝ) := by exact_mod_cast hb
  have hsQ : 0 < Real.sqrt (Q : ℝ) := Real.sqrt_pos.mpr hQ'
  have hsA : 0 < Real.sqrt (a.nsq : ℝ) := Real.sqrt_pos.mpr hA'
  have hsB : 0 < Real.sqrt (b.nsq : ℝ) := Real.sqrt_pos.mpr hB'
  have key : (rScore Q b < rScore Q a) ↔
      (b.dotQ : ℝ) * Real.sqrt (a.nsq : ℝ) < (a.dotQ : ℝ) * Real.sqrt (b.nsq : ℝ) := by
    unfold rScore
    rw [div_lt_div_iff₀ (mul_pos hsQ hsB) (mul_pos hsQ hsA),
      show (b.dotQ : ℝ) * (Real.sqrt (Q : ℝ) * Real.sqrt (a.nsq : ℝ)) =
        Real.sqrt (Q : ℝ) * ((b.dotQ : ℝ) * Real.sqrt (a.nsq : ℝ)) from by ring,
      show (a.dotQ : ℝ) * (Real.sqrt (Q : ℝ) * Real.sqrt (b.nsq : ℝ)) =
        Real.sqrt (Q : ℝ) * ((a.dotQ : ℝ) * Real.sqrt (b.nsq : ℝ)) from by ring,
      mul_lt_mul_left hsQ]
  rw [key]
  unfold scoreGT
  by_cases hxa : 0 ≤ a.dotQ
  · by_cases hxb : 0 ≤ b.dotQ
    · rw [if_pos hxa, if_pos hxb, decide_eq_true_eq]
      have hu : (0 : ℝ) ≤ (b.dotQ : ℝ) * Real.sqrt (a.nsq : ℝ) :=
        mul_nonneg (by exact_mod_cast hxb) hsA.le
      have hv : (0 : ℝ) ≤ (a.dotQ : ℝ) * Real.sqrt (b.nsq : ℝ) :=
        mul_nonneg (by exact_mod_cast hxa) hsB.le
      rw [← pow_lt_pow_iff_left₀ hu hv (by norm_num : (2 : ℕ) ≠ 0),
        mul_pow, mul_pow, Real.sq_sqrt hA'.le, Real.sq_sqrt hB'.le]
      constructor
      · intro h
        exact_mod_cast h
      · intro h
        exact_mod_cast h
    · rw [if_pos hxa, if_neg hxb]
      have h1 : (b.dotQ : ℝ) < 0 := by exact_mod_cast not_le.mp hxb
      have h2 : (b.dotQ : ℝ) * Real.sqrt (a.nsq : ℝ) < 0 := mul_neg_of_neg_of_pos h1 hsA
      have h3 : (0 : ℝ) ≤ (a.dotQ : ℝ) * Real.sqrt (b.nsq : ℝ) :=
        mul_nonneg (by exact_mod_cast hxa) hsB.le
      exact ⟨fun _ => lt_of_lt_of_le h2 h3, fun _ => rfl⟩
  · by_cases hxb : 0 ≤ b.dotQ
    · rw [if_neg hxa, if_pos hxb]
      have h1 : (a.dotQ : ℝ) < 0 := by exact_mod_cast not_le.mp hxa
      have h2 : (a.dotQ : ℝ) * Real.sqrt (b.nsq : ℝ) < 0 := mul_neg_of_neg_of_pos h1 hsB
      have h3 : (0 : ℝ) ≤ (b.dotQ : ℝ) * Real.sqrt (a.nsq : ℝ) :=
        mul_nonneg (by exact_mod_cast hxb) hsA.le
      constructor
      · intro h
        exact absurd h (Bool.false_ne_true)
      · intro h
        exact absurd h (not_lt.mpr (le_trans h2.le h3))
    · rw [if_neg hxa, if_neg hxb, decide_eq_true_eq]
      have h1 : (a.dotQ : ℝ) < 0 := by exact_mod_cast not_le.mp hxa
      have h2 : (b.dotQ : ℝ) < 0 := by exact_mod_cast not_le.mp hxb
      have hu : (b.dotQ : ℝ) * Real.sqrt (a.nsq : ℝ) < 0 := mul_neg_of_neg_of_pos h2 hsA
      have hv : (a.dotQ : ℝ) * Real.sqrt (b.nsq : ℝ) < 0 := mul_neg_of_neg_of_pos h1 hsB
      conv_rhs => rw [← neg_lt_neg_iff]
      rw [← pow_lt_pow_iff_left₀ (neg_nonneg.mpr hv.le) (neg_nonneg.mpr hu.le)
          (by norm_num : (2 : ℕ) ≠ 0),
        neg_sq, neg_sq, mul_pow, mul_pow, Real.sq_sqrt hA'.le, Real.sq_sqrt hB'.le]
      constructor
      · intro h
        exact_mod_cast h
      · intro h
        exact_mod_cast h

/-- A query without positive squared norm admits no entries at all. -/
theorem simListAux_not_pos_query (q : List ℚ) (hq : ¬ 0 < normSq q) :
    ∀ (cs : List StoredChunk) (i : Nat), simListAux q i cs = [] := by
  intro cs
  induction cs with
  | nil => intro i; rfl
  | cons c rest ih =>
    intro i
    have hc : ¬ (0 < normSq c.embedding ∧ 0 < normSq q) := fun h => hq h.2
    simp [simListAux, hc, ih]

/-- The similarity list carries strictly increasing insertion
positions. -/
theorem simListAux_pos_pairwise (q : List ℚ) :
    ∀ (cs : List StoredChunk) (i : Nat),
      (simListAux q i cs).Pairwise (fun a b => a.pos < b.pos) := by
  intro cs
  induction cs with
  | nil => intro i; simp [simListAux]
  | cons c rest ih =>
    intro i
    by_cases hc : 0 < normSq c.embedding ∧ 0 < normSq q
    · simp only [simListAux, if_pos hc]
      rw [List.pairwise_cons]
      refine ⟨?_, ih (i + 1)⟩
      intro b hb
      have := (simListAux_mem_spec q rest (i + 1) b hb).2.2.2.2
      show i < b.pos
      omega
    · simp only [simListAux, if_neg hc]
      exact ih (i + 1)

/-- Stable descending insertion preserves the sortedness-with-stability
invariant: an inserted element whose insertion position precedes every
element of the list lands exactly where the score order (ties broken by
position) puts it. -/
theorem insertDesc_pairwise (q : List ℚ) (hq : 0 < normSq q) (x : SimEntry)
    (hx : 0 < x.nsq) :
    ∀ l : List SimEntry,
      (∀ y ∈ l, 0 < y.nsq) →
      (∀ y ∈ l, x.pos < y.pos) →
      l.Pairwise (fun a b => realScore q b ≤ realScore q a ∧
        (realScore q a = realScore q b → a.pos < b.pos)) →
      (insertDesc x l).Pairwise (fun a b => realScore q b ≤ realScore q a ∧
        (realScore q a = realScore q b → a.pos < b.pos)) := by
  intro l
  induction l with
  | nil =>
    intro _ _ _
    simp [insertDesc]
  | cons z zs ih =>
    intro hpos hlt hpw
    rw [List.pairwise_cons] at hpw
    have hz : 0 < z.nsq := hpos z (by simp)
    by_cases hgt : scoreGT z x = true
    · simp only [insertDesc, hgt, if_true]
      rw [List.pairwise_cons]
      constructor
      · intro b hb
        rw [mem_insertDesc] at hb
        rcases hb with rfl | hb
        · have hzx : realScore q b < realScore q z :=
            (scoreGT_iff_rScore (normSq q) hq z b hz hx).mp hgt
          exact ⟨hzx.le, fun he => absurd he.symm (ne_of_lt hzx)⟩
        · exact hpw.1 b hb
      · exact ih (fun y hy => hpos y (by simp [hy])) (fun y hy => hlt y (by simp [hy])) hpw.2
    · rw [Bool.not_eq_true] at hgt
      simp only [insertDesc, hgt, Bool.false_eq_true, if_false]
      have hle : realScore q z ≤ realScore q x := by
        rcases lt_or_le (realScore q x) (realScore q z) with h | h
        · exact absurd ((scoreGT_iff_rScore (normSq q) hq z x hz hx).mpr h)
            (by rw [hgt]; exact Bool.false_ne_true)
        · exact h
      rw [List.pairwise_cons]
      constructor
      · intro b hb
        rcases List.mem_cons.mp hb with rfl | hb
        · exact ⟨hle, fun _ => hlt b (by simp)⟩
        · have h1 : realScore q b ≤ realScore q z := (hpw.1 b hb).1
          exact ⟨le_trans h1 hle, fun _ => hlt b (by simp [hb])⟩
      · rw [List.pairwise_cons]
        exact ⟨hpw.1, hpw.2⟩

/-- The stable descending sort of a list with strictly increasing
positions is sorted by descending score with ties in position order. -/
theorem sortDesc_pairwise (q : List ℚ) (hq : 0 < normSq q) :
    ∀ l : List SimEntry, (∀ y ∈ l, 0 < y.nsq) →
      l.Pairwise (fun a b => a.pos < b.pos) →
      (sortDesc l).Pairwise (fun a b => realScore q b ≤ realScore q a ∧
        (realScore q a = realScore q b → a.pos < b.pos)) := by
  intro l
  induction l with
  | nil =>
    intro _ _
    simp [sortDesc]
  | cons x xs ih =>
    intro hpos hpw
    rw [List.pairwise_cons] at hpw
    exact insertDesc_pairwise q hq x (hpos x (by simp)) (sortDesc xs)
      (fun y hy => hpos y (by simp [(mem_sortDesc xs y).mp hy]))
      (fun y hy => hpw.1 y ((mem_sortDesc xs y).mp hy))
      (ih (fun y hy => hpos y (by simp [hy])) hpw.2)

/-- C5: `query(v, k)` returns at most `k` results, sorted by descending
cosine similarity score, and any two entries with exactly equal scores
appear in their original insertion (iteration) order. -/
theorem C5_retrieval_ordering (q : List ℚ) (cs : List StoredChunk) (k : Nat) :
    (cosineSearch q cs k).length ≤ k ∧
    (cosineSearch q cs k).Pairwise (fun a b =>
      realScore q b ≤ realScore q a ∧ (realScore q a = realScore q b → a.pos < b.pos)) := by
  constructor
  · exact le_trans (le_of_eq (List.length_take _ _)) (min_le_left _ _)
  · by_cases hq : 0 < normSq q
    · have hpos : ∀ y ∈ simList q cs, 0 < y.nsq := by
        intro y hy
        obtain ⟨h1, _, _, h4, _⟩ := simListAux_mem_spec q cs 0 y hy
        rw [h4]
        exact h1
      have hs := sortDesc_pairwise q hq (simList q cs) hpos (simListAux_pos_pairwise q cs 0)
      exact hs.sublist (List.take_sublist k (sortDesc (simList q cs)))
    · have hempty : simList q cs = [] := simListAux_not_pos_query q hq cs 0
      unfold cosineSearch
      rw [hempty]
      simp [sortDesc]

end DEB
